import Mathlib

set_option maxHeartbeats 1000000

/-
Verification of the property-name validation engine of the propertyNames
repository (src/name.py, class PropertyNameValidator).

The external services the code talks to (the better_profanity word list, the
Urban Dictionary client, the doublemetaphone encoder, the wordnet corpus, the
Google and Nominatim geocoders, the Places client and the geodesic distance
routine) are modelled as an explicit environment of oracle functions; the
control flow of src/name.py over those oracles is embedded directly.
-/

namespace PropertyNames

/-- Python str.lower, applied character by character. -/
def strLower (s : String) : String := String.mk (s.data.map Char.toLower)

/-- Python string slicing s[:n]: the first n characters. -/
def strTake (n : Nat) (s : String) : String := String.mk (s.data.take n)

/-- The Python substring test (the in operator on str), as a Boolean. -/
def substrB (t h : String) : Bool := decide (t.data <:+: h.data)

/-- Helper for pySplit: walk the characters keeping the current word. -/
def pySplitAux : List Char → List Char → List String
  | [], acc => if acc = [] then [] else [String.mk acc]
  | c :: cs, acc =>
    if c.isWhitespace then
      (if acc = [] then pySplitAux cs [] else String.mk acc :: pySplitAux cs [])
    else pySplitAux cs (acc ++ [c])

/-- Python str.split with no argument: split on runs of whitespace and drop
empty pieces. -/
def pySplit (s : String) : List String := pySplitAux s.data []

/-- The single-quote character, used inside the warning strings produced by
the f-strings of src/name.py. -/
def sq : String := String.mk [Char.ofNat 39]

/-- The custom blocklist returned by
PropertyNameValidator._load_custom_blocklist (src/name.py lines 36-42). -/
def customBlocklist : List String := ["ghetto", "hood", "sketchy"]

/-- One Urban Dictionary definition object as the validator consumes it:
whether the object has a definition attribute, its thumbs_up and upvotes
counts, and its definition text. -/
structure SlangDef where
  hasDef : Bool
  thumbs_up : Nat
  upvotes : Nat
  text : String
deriving DecidableEq

/-- votes of a definition (src/name.py line 78):
getattr(definition, thumbs_up, 0) or getattr(definition, upvotes, 0). -/
def SlangDef.votes (d : SlangDef) : Nat :=
  if d.thumbs_up ≠ 0 then d.thumbs_up else d.upvotes

/-- An entry of the negative_definitions list built by the slang check. -/
structure NegDef where
  text : String
  upvotes : Nat
deriving DecidableEq

/-- The external world of the validator: the loaded profanity word list, the
Urban Dictionary lookup (none models a raised exception), the primary
doublemetaphone code (none models an encoding exception), the flattened
wordnet lemma names used for synonyms, and the wordnet definition texts used
by the connotation check of the alternate validator version. -/
structure Env where
  censorWords : List String
  udDefine : String → Option (List SlangDef)
  metaphoneEnc : String → Option String
  wnLemmas : String → List String
  wnDefs : String → List String

/-- The validation_results dictionary of validate_property_name. -/
structure ValidationResult where
  is_valid : Bool
  warnings : List String
  suggestions : List String
deriving DecidableEq

/-- The initial validation_results value (src/name.py lines 49-53). -/
def vr0 : ValidationResult := { is_valid := true, warnings := [], suggestions := [] }

/-- Modelled from the spec: profanity.contains_profanity together with the
custom words added in the constructor is third-party library code that is not
under src/; section 4.1 of the spec describes the lexical filter as
case-insensitive exact or substring matching against the maintained profanity
word list plus the custom blocklist. Inputs reaching this check from
validate_property_name are already lowercased and the word list entries are
stored lowercased, so the matching here is plain substring containment. -/
def containsProfanity (env : Env) (u : String) : Bool :=
  (env.censorWords ++ customBlocklist).any (fun t => substrB t u)

/-- Warning of the profanity check (src/name.py line 65). -/
def profWarn (u : String) : String :=
  "Contains inappropriate language: " ++ sq ++ u ++ sq

/-- Warning of the significant-slang-usage branch (src/name.py line 96). -/
def sigWarn (w : String) (total : Nat) : String :=
  sq ++ w ++ sq ++ " has significant slang usage (" ++ Nat.repr total ++ " upvotes)"

/-- Warning of the inappropriate-slang-meaning branch (src/name.py line 103). -/
def negWarn (w : String) (txt : String) : String :=
  sq ++ w ++ sq ++ " has inappropriate slang meaning: " ++ txt ++ "..."

/-- Warning of the phonetic check (src/name.py line 116). -/
def phonWarn (bw : String) : String :=
  "Phonetically similar to inappropriate term: " ++ sq ++ bw ++ sq

/-- Warning of the cultural-sensitivity check (src/name.py line 141). -/
def culturalWarn (t e : String) : String :=
  "Potentially sensitive term " ++ sq ++ t ++ sq ++ ": " ++ e

/-- The negative_themes keyword list (src/name.py lines 81-86). -/
def negativeThemes : List String :=
  ["drug", "sexual", "offensive", "racist", "vulgar",
   "slur", "explicit", "nsfw", "derogatory", "inappropriate",
   "adult", "porn", "fetish", "sex", "butt", "ass",
   "penis", "vagina", "dick"]

/-- Whether a (lowercased) definition text contains a negative theme. -/
def themeHit (t : String) : Bool := negativeThemes.any (fun th => substrB th t)

/-- The dictionary appended to negative_definitions (src/name.py lines 89-92):
the lowercased definition text truncated to 100 characters, and the votes. -/
def mkNeg (d : SlangDef) : NegDef :=
  { text := strTake 100 (strLower d.text), upvotes := d.votes }

/-- The for-loop over the definitions returned by ud.define (src/name.py
lines 75-92): accumulate total_upvotes and the negative_definitions list. -/
def slangScan (defs : List SlangDef) : Nat × List NegDef :=
  defs.foldl
    (fun acc d =>
      if d.hasDef then
        (acc.1 + d.votes,
         if 1000 < d.votes ∧ themeHit (strLower d.text) = true then acc.2 ++ [mkNeg d]
         else acc.2)
      else acc)
    (0, [])

/-- Structural form of the total_upvotes accumulation. -/
def slangTotal : List SlangDef → Nat
  | [] => 0
  | d :: ds => (if d.hasDef then d.votes else 0) + slangTotal ds

/-- Structural form of the negative_definitions accumulation. -/
def slangNegs : List SlangDef → List NegDef
  | [] => []
  | d :: ds =>
    (if d.hasDef then
       (if 1000 < d.votes ∧ themeHit (strLower d.text) = true then [mkNeg d] else [])
     else [])
      ++ slangNegs ds

/-- Python max over a nonempty list with key upvotes: an element is kept over
the current best only when strictly greater, so the first maximum wins. -/
def pyMaxNeg : NegDef → List NegDef → NegDef
  | best, [] => best
  | best, d :: ds => pyMaxNeg (if best.upvotes < d.upvotes then d else best) ds

/-- Check 1 of the per-unit loop of validate_property_name (src/name.py
lines 61-66): the profanity filter. -/
def profStep (env : Env) (w : String) (r : ValidationResult) : ValidationResult :=
  if containsProfanity env w then
    { r with is_valid := false, warnings := r.warnings ++ [profWarn w] }
  else r

/-- Check 2 of the per-unit loop of validate_property_name (src/name.py
lines 68-108): the Urban Dictionary slang check. A none lookup result models
the caught exception, which leaves the state untouched. -/
def slangStep (env : Env) (w : String) (r : ValidationResult) : ValidationResult :=
  match env.udDefine w with
  | none => r
  | some defs =>
    if defs.isEmpty then r
    else
      let scan := slangScan defs
      let r2 :=
        if 3000 < scan.1 then { r with warnings := r.warnings ++ [sigWarn w scan.1] }
        else r
      match scan.2 with
      | [] => r2
      | n :: ns =>
        { r2 with is_valid := false
                , warnings := r2.warnings ++ [negWarn w (pyMaxNeg n ns).text] }

/-- The body of the loop over words + [name_lower]. -/
def checkUnit (env : Env) (w : String) (r : ValidationResult) : ValidationResult :=
  slangStep env w (profStep env w r)

/-- The inner loop of the phonetic check (src/name.py lines 113-117): compare
the name code against the code of every blocked word, appending a warning on
equality. A none encoding models an exception, which aborts the whole
try-block, dropping the remaining blocked words but keeping earlier warnings. -/
def phoneticWarnings (env : Env) (nameSound : String) : List String → List String
  | [] => []
  | bw :: rest =>
    match env.metaphoneEnc bw with
    | none => []
    | some bs =>
      (if nameSound = bs then [phonWarn bw] else []) ++ phoneticWarnings env nameSound rest

/-- Check 4 of validate_property_name (src/name.py lines 110-119): the
phonetic-similarity check. A none code for the name itself models an
exception in doublemetaphone(name_lower), which skips the check entirely. -/
def phoneticStage (env : Env) (nl : String) (r : ValidationResult) : ValidationResult :=
  match env.metaphoneEnc nl with
  | none => r
  | some ns => { r with warnings := r.warnings ++ phoneticWarnings env ns customBlocklist }

/-- The cultural_terms table of _check_cultural_sensitivity (src/name.py
lines 132-136), in insertion order. -/
def cultural_terms : List (String × String) :=
  [("plantation", "Historical connection to slavery"),
   ("colonial", "Historical connection to colonialism"),
   ("savage", "Derogatory term with racist history")]

/-- The warnings _check_cultural_sensitivity appends (src/name.py lines
138-142): one per table term occurring in the lowercased name. -/
def culturalWarnings (name : String) : List String :=
  cultural_terms.filterMap
    (fun p => if substrB p.1 (strLower name) = true then some (culturalWarn p.1 p.2) else none)

/-- Check 5 of validate_property_name: _check_cultural_sensitivity mutates the
result by appending its warnings. -/
def culturalStage (name : String) (r : ValidationResult) : ValidationResult :=
  { r with warnings := r.warnings ++ culturalWarnings name }

/-- Helper for pyTitle: uppercase an alphabetic character that follows a
non-alphabetic one, lowercase the others. -/
def pyTitleAux : List Char → Bool → List Char
  | [], _ => []
  | c :: cs, prevAlpha =>
    if c.isAlpha then
      (if prevAlpha then c.toLower else c.toUpper) :: pyTitleAux cs true
    else c :: pyTitleAux cs false

/-- Python str.title over ASCII text. -/
def pyTitle (s : String) : String := String.mk (pyTitleAux s.data false)

/-- Python single-space str.join over a word list. -/
def joinSpace : List String → String
  | [] => ""
  | [w] => w
  | w :: ws => w ++ " " ++ joinSpace ws

/-- The enumerated word-replacement loop of _generate_alternative_suggestions
(src/name.py lines 151-163). Python list(set(...)) is modelled by List.dedup:
set iteration order is unspecified in Python (spec section 9 documents the
non-determinism), and no property proved here depends on the order chosen. -/
def genSuggestionsAux (env : Env) (words : List String) : List (Nat × String) → List String
  | [] => []
  | (i, word) :: rest =>
    (let synonyms := (env.wnLemmas word).filter (fun l => strLower l != strLower word)
     if synonyms.isEmpty then []
     else (synonyms.dedup.take 3).map (fun syn => joinSpace (words.set i (pyTitle syn))))
      ++ genSuggestionsAux env words rest

/-- _generate_alternative_suggestions (src/name.py lines 144-167): build
replacement names and return up to 5 unique suggestions. -/
def generate_alternative_suggestions (env : Env) (name : String) : List String :=
  ((genSuggestionsAux env (pySplit name) (pySplit name).enum).dedup).take 5

/-- The list words + [name_lower] the per-unit loop iterates over
(src/name.py lines 56-60). -/
def vUnits (name : String) : List String := pySplit (strLower name) ++ [strLower name]

/-- Sequential execution of a per-unit check over a list of units. -/
def runChecks (f : String → ValidationResult → ValidationResult) :
    List String → ValidationResult → ValidationResult
  | [], r => r
  | u :: us, r => runChecks f us (f u r)

/-- The suggestion trigger of validate_property_name (src/name.py lines
124-126): if not is_valid or warnings, generate suggestions. -/
def suggestStage (env : Env) (name : String) (r : ValidationResult) : ValidationResult :=
  if !r.is_valid || !r.warnings.isEmpty then
    { r with suggestions := generate_alternative_suggestions env name }
  else r

/-- validate_property_name (src/name.py lines 44-128): run the per-unit
profanity and slang checks over every word plus the full lowercased name,
then the phonetic check, then the cultural check, then generate suggestions
when invalid or warned. -/
def validate_property_name (env : Env) (name : String) : ValidationResult :=
  suggestStage env name
    (culturalStage name
      (phoneticStage env (strLower name)
        (runChecks (checkUnit env) (vUnits name) vr0)))

/-- The keyword set of the connotation check, per spec section 4.3. -/
def connotationKeywords : List String :=
  ["offensive", "derogatory", "inappropriate", "slur"]

/-- Whether a definition text triggers the connotation check. -/
def connotationHit (t : String) : Bool :=
  connotationKeywords.any (fun k => substrB k (strLower t))

/-- Modelled from the spec: the connotation check (check 3 of the validator)
is absent from src/name.py, whose check numbering jumps from 2 directly to 4;
spec section 9 records a second, stricter validator version of this repository
that is not under src/. Per spec section 4.3, for every definition text
returned by the lexical-semantics dictionary for a word, if the text contains
one of offensive, derogatory, inappropriate or slur, a warning carrying that
definition text is appended, and validity is never changed. -/
def connotationStep (env : Env) (w : String) (r : ValidationResult) : ValidationResult :=
  { r with warnings := r.warnings ++ (env.wnDefs w).filter (fun t => connotationHit t) }

/-- Per-unit loop body of the alternate validator version: the src/name.py
checks followed by the spec-modelled connotation check. -/
def checkUnitFull (env : Env) (w : String) (r : ValidationResult) : ValidationResult :=
  connotationStep env w (checkUnit env w r)

/-- The alternate validator version including the spec-modelled connotation
check; identical to validate_property_name in every other stage. -/
def validate_property_name_full (env : Env) (name : String) : ValidationResult :=
  suggestStage env name
    (culturalStage name
      (phoneticStage env (strLower name)
        (runChecks (checkUnitFull env) (vUnits name) vr0)))

/-- Whether the slang check invalidates a unit: its negative_definitions list
is nonempty. -/
def slangFlag (env : Env) (u : String) : Bool :=
  match env.udDefine u with
  | none => false
  | some defs => !(slangNegs defs).isEmpty

/-- Whether a unit makes the per-unit loop set is_valid to false: a profanity
hit, or a nonempty negative_definitions list from the slang check. -/
def unitFlag (env : Env) (u : String) : Bool :=
  containsProfanity env u || slangFlag env u

/-- The warnings one unit contributes through the slang check. -/
def slangWarns (env : Env) (u : String) : List String :=
  match env.udDefine u with
  | none => []
  | some defs =>
    if defs.isEmpty then []
    else
      (if 3000 < slangTotal defs then [sigWarn u (slangTotal defs)] else []) ++
        (match slangNegs defs with
         | [] => []
         | n :: ns => [negWarn u (pyMaxNeg n ns).text])

/-- All warnings one unit contributes in the per-unit loop. -/
def unitWarns (env : Env) (u : String) : List String :=
  (if containsProfanity env u then [profWarn u] else []) ++ slangWarns env u

/-- The warnings one unit contributes through the connotation check. -/
def connWarns (env : Env) (u : String) : List String :=
  (env.wnDefs u).filter (fun t => connotationHit t)

/-- Concatenation of per-unit warning lists over a unit list. -/
def catMap (g : String → List String) : List String → List String
  | [] => []
  | u :: us => g u ++ catMap g us

/-- The warnings the phonetic stage contributes. -/
def phonWarns (env : Env) (nl : String) : List String :=
  match env.metaphoneEnc nl with
  | none => []
  | some ns => phoneticWarnings env ns customBlocklist

/-- The final validity flag of a validation run. -/
def allValid (env : Env) (name : String) : Bool :=
  (vUnits name).all (fun u => !unitFlag env u)

/-- The final warning list of a validation run. -/
def allWarns (env : Env) (name : String) : List String :=
  catMap (unitWarns env) (vUnits name) ++ phonWarns env (strLower name) ++ culturalWarnings name

/-- Per-unit warnings of the alternate validator version. -/
def unitWarnsFull (env : Env) (u : String) : List String :=
  unitWarns env u ++ connWarns env u

/-- The final warning list of the alternate validator version. -/
def allWarnsFull (env : Env) (name : String) : List String :=
  catMap (unitWarnsFull env) (vUnits name) ++ phonWarns env (strLower name) ++
    culturalWarnings name

/-- A geographic coordinate pair; geodesic distances are modelled over ℚ. -/
structure PlaceLoc where
  lat : ℚ
  lng : ℚ
deriving DecidableEq

/-- A candidate returned by the places_nearby call, with the fields the code
reads: name, place_id, geometry location, optional vicinity and types. -/
structure Place where
  name : String
  place_id : String
  loc : PlaceLoc
  vicinity : Option String
  types : Option (List String)
deriving DecidableEq

/-- The fields of a place-details response the code reads; each is optional
since the code uses .get with defaults. -/
structure PlaceDetails where
  formatted_address : Option String
  rating : Option String
  website : Option String
  url : Option String
  types : Option (List String)
deriving DecidableEq

/-- A dictionary appended to self.search_results (src/name.py lines 266-291).
The basic variant built in the details-exception handler leaves rating,
website and google_maps absent (none). -/
structure ConflictEntry where
  name : String
  address : String
  distance : ℚ
  rating : Option String
  website : Option String
  google_maps : Option String
  types : List String
  source : String
deriving DecidableEq

/-- Trace of external calls made by search_property_name. -/
inductive ExtCall where
  | googleGeocode (addr : String)
  | nominatim (addr : String)
  | placesNearby
  | placeDetails (id : String)
deriving DecidableEq

/-- The geographic collaborators: both geocoders (error models a raised
exception), the places_nearby query (error carries the exception text), the
place-details query, the geodesic distance in miles, Python round(x, 2) over
the float distance (abstract, since no claim depends on the rounding), and
datetime.now().isoformat(). -/
structure GeoEnv where
  googleGeocode : String → Except Unit (List PlaceLoc)
  nominatimGeocode : String → Except Unit (Option PlaceLoc)
  placesNearby : PlaceLoc → ℚ → String → Except String (List Place)
  placeDetails : String → Except Unit PlaceDetails
  geodesicMiles : PlaceLoc → PlaceLoc → ℚ
  round2 : ℚ → ℚ
  now : String

/-- get_property_coordinates (src/name.py lines 169-186) with its call trace:
Google geocoding first, the Nominatim fallback only when Google returns an
empty result; any exception yields None without trying the fallback. -/
def get_property_coordinates (g : GeoEnv) (addr : String) :
    Option PlaceLoc × List ExtCall :=
  match g.googleGeocode addr with
  | Except.error _ => (none, [ExtCall.googleGeocode addr])
  | Except.ok locs =>
    match locs with
    | l :: _ => (some l, [ExtCall.googleGeocode addr])
    | [] =>
      match g.nominatimGeocode addr with
      | Except.error _ => (none, [ExtCall.googleGeocode addr, ExtCall.nominatim addr])
      | Except.ok r => (r, [ExtCall.googleGeocode addr, ExtCall.nominatim addr])

/-- The body of the loop over places_nearby results (src/name.py lines
248-291): keep a place only when the lowercased property name is a substring
of its lowercased name and the computed distance is at most the radius; a
failing details call falls back to the basic entry. Returns the appended
entries and the trace of details calls. -/
def processPlace (g : GeoEnv) (pname : String) (coords : PlaceLoc) (radius : ℚ)
    (place : Place) : List ConflictEntry × List ExtCall :=
  if substrB (strLower pname) (strLower place.name) then
    match g.placeDetails place.place_id with
    | Except.ok det =>
      let d := g.geodesicMiles coords place.loc
      if d ≤ radius then
        ([{ name := place.name
          , address := det.formatted_address.getD (place.vicinity.getD "Address not available")
          , distance := g.round2 d
          , rating := some (det.rating.getD "No rating")
          , website := some (det.website.getD "No website")
          , google_maps := some (det.url.getD "")
          , types := det.types.getD ["business"]
          , source := "Google Places" }], [ExtCall.placeDetails place.place_id])
      else ([], [ExtCall.placeDetails place.place_id])
    | Except.error _ =>
      let d := g.geodesicMiles coords place.loc
      if d ≤ radius then
        ([{ name := place.name
          , address := place.vicinity.getD "Address not available"
          , distance := g.round2 d
          , rating := none
          , website := none
          , google_maps := none
          , types := place.types.getD ["business"]
          , source := "Google Places" }], [ExtCall.placeDetails place.place_id])
      else ([], [ExtCall.placeDetails place.place_id])
  else ([], [])

/-- The loop over all places, concatenating entries and call traces. -/
def collectPlaces (g : GeoEnv) (pname : String) (coords : PlaceLoc) (radius : ℚ) :
    List Place → List ConflictEntry × List ExtCall
  | [] => ([], [])
  | p :: ps =>
    let r := processPlace g pname coords radius p
    let rest := collectPlaces g pname coords radius ps
    (r.1 ++ rest.1, r.2 ++ rest.2)

/-- Python sorted(key=distance) of format_results (src/name.py lines 302-311),
modelled by the stable insertion sort on the distance field. -/
def sortConflicts (l : List ConflictEntry) : List ConflictEntry :=
  List.insertionSort (fun a b => a.distance ≤ b.distance) l

instance : IsTotal ConflictEntry (fun a b => a.distance ≤ b.distance) :=
  ⟨fun a b => le_total a.distance b.distance⟩

instance : IsTrans ConflictEntry (fun a b => a.distance ≤ b.distance) :=
  ⟨fun _ _ _ h1 h2 => le_trans h1 h2⟩

/-- The dictionary search_property_name returns: an error object carrying the
validation result, or the formatted results of format_results plus the
validation result. -/
inductive SearchOut where
  | err (msg : String) (vr : ValidationResult)
  | ok (timestamp : String) (total : Nat) (conflicts : List ConflictEntry)
      (vr : ValidationResult)
deriving DecidableEq

/-- The potential_conflicts list of a search result. -/
def SearchOut.conflicts : SearchOut → List ConflictEntry
  | SearchOut.err _ _ => []
  | SearchOut.ok _ _ c _ => c

/-- search_property_name (src/name.py lines 214-300) with its trace of
external calls: validate first and stop on an invalid name, then geocode,
then query places within radius_miles * 1609.34 meters, filter and sort. -/
def search_property_name (env : Env) (g : GeoEnv) (pname paddr : String)
    (radius : ℚ) : SearchOut × List ExtCall :=
  let vr := validate_property_name env pname
  if vr.is_valid = false then (SearchOut.err "Invalid property name" vr, [])
  else
    match get_property_coordinates g paddr with
    | (none, calls) => (SearchOut.err "Could not get coordinates for provided address" vr, calls)
    | (some coords, calls) =>
      match g.placesNearby coords (radius * (1609.34 : ℚ)) pname with
      | Except.error e =>
        (SearchOut.err ("Error searching for properties: " ++ e) vr,
         calls ++ [ExtCall.placesNearby])
      | Except.ok places =>
        let pr := collectPlaces g pname coords radius places
        (SearchOut.ok g.now pr.1.length (sortConflicts pr.1) vr,
         calls ++ [ExtCall.placesNearby] ++ pr.2)

/-- An environment in which every external lookup fails or is empty. -/
def env0 : Env :=
  { censorWords := []
  , udDefine := fun _ => none
  , metaphoneEnc := fun _ => none
  , wnLemmas := fun _ => []
  , wnDefs := fun _ => [] }

/-- An environment realizing a phonetic-only hit: hud and hood share the
primary metaphone code HT, and wordnet offers shack as a synonym of Hud. -/
def envC2 : Env :=
  { censorWords := []
  , udDefine := fun _ => none
  , metaphoneEnc := fun s => if s = "hud" ∨ s = "hood" then some "HT" else some s
  , wnLemmas := fun w => if w = "Hud" then ["shack"] else []
  , wnDefs := fun _ => [] }

/-- An Urban Dictionary definition with a negative theme and high votes. -/
def slangD0 : SlangDef :=
  { hasDef := true, thumbs_up := 2000, upvotes := 0, text := "A drug den" }

/-- An Urban Dictionary definition with no negative theme. -/
def slangD1 : SlangDef :=
  { hasDef := true, thumbs_up := 0, upvotes := 1500, text := "an internet area name" }

/-- An environment in which the word domain has slang definitions. -/
def envS : Env :=
  { censorWords := []
  , udDefine := fun w =>
      if w = "domain" then some [slangD0, slangD1]
      else if w = "the" then some [slangD1] else none
  , metaphoneEnc := fun _ => none
  , wnLemmas := fun _ => []
  , wnDefs := fun _ => [] }

/-- An environment in which the word grand has a flagged wordnet definition. -/
def envC4 : Env :=
  { censorWords := []
  , udDefine := fun _ => none
  , metaphoneEnc := fun _ => none
  , wnLemmas := fun _ => []
  , wnDefs := fun w => if w = "grand" then ["an offensive term"] else [] }

/-- A concrete coordinate for witnesses. -/
def loc0 : PlaceLoc := { lat := 0, lng := 0 }

/-- A geographic environment in which every collaborator fails or is empty. -/
def g0 : GeoEnv :=
  { googleGeocode := fun _ => Except.error ()
  , nominatimGeocode := fun _ => Except.ok none
  , placesNearby := fun _ _ _ => Except.ok []
  , placeDetails := fun _ => Except.error ()
  , geodesicMiles := fun _ _ => 0
  , round2 := fun q => q
  , now := "t" }

/-- A concrete candidate place for witnesses. -/
def place0 : Place :=
  { name := "The Domain Apartments", place_id := "p0", loc := loc0
  , vicinity := none, types := none }

/-- Geographic environment with a constant 5-mile geodesic distance. -/
def g1 : GeoEnv := { g0 with geodesicMiles := fun _ _ => 5 }

/-- Geographic environment realizing a full successful search path. -/
def g2 : GeoEnv :=
  { googleGeocode := fun _ => Except.ok [loc0]
  , nominatimGeocode := fun _ => Except.ok none
  , placesNearby := fun _ _ _ => Except.ok [place0]
  , placeDetails := fun _ => Except.error ()
  , geodesicMiles := fun _ _ => 2
  , round2 := fun q => q
  , now := "ts" }

/-- The basic entry the successful search path of g2 produces for place0. -/
def e0 : ConflictEntry :=
  { name := "The Domain Apartments", address := "Address not available"
  , distance := 2, rating := none, website := none, google_maps := none
  , types := ["business"], source := "Google Places" }

/-- String append acts as list append on the underlying characters. -/
theorem strData_append (a b : String) : (a ++ b).data = a.data ++ b.data := by
  cases a
  cases b
  rfl

/-- Every list is an infix of itself. -/
theorem listInfixRefl (l : List Char) : l <:+: l := ⟨[], [], by simp⟩

/-- The Boolean substring test decides the infix relation on characters. -/
theorem substrB_eq_true {t h : String} : substrB t h = true ↔ t.data <:+: h.data := by
  simp [substrB]

/-- Padding a string on both sides preserves infixes of its character list. -/
theorem infix_pad {t u : String} (a b : String) (h : t.data <:+: u.data) :
    t.data <:+: ((a ++ u) ++ b).data := by
  obtain ⟨x, y, hxy⟩ := h
  refine ⟨a.data ++ x, y ++ b.data, ?_⟩
  rw [strData_append, strData_append, ← hxy]
  simp

/-- A word-list term that is an infix of the unit makes the profanity test
fire. -/
theorem containsProfanity_of_mem {env : Env} {t u : String}
    (h1 : t ∈ env.censorWords ++ customBlocklist) (h2 : t.data <:+: u.data) :
    containsProfanity env u = true := by
  unfold containsProfanity
  rw [List.any_eq_true]
  exact ⟨t, h1, by simpa [substrB] using h2⟩

/-- Field form of the profanity step. -/
theorem profStep_eq (env : Env) (w : String) (r : ValidationResult) :
    profStep env w r =
      ⟨r.is_valid && !containsProfanity env w,
       r.warnings ++ (if containsProfanity env w then [profWarn w] else []),
       r.suggestions⟩ := by
  unfold profStep
  cases h : containsProfanity env w <;> simp [h]

/-- The fold of the slang loop computes the structural total and list. -/
theorem slangScan_aux (defs : List SlangDef) : ∀ (a : Nat) (l : List NegDef),
    List.foldl
      (fun acc d =>
        if d.hasDef then
          (acc.1 + d.votes,
           if 1000 < d.votes ∧ themeHit (strLower d.text) = true then acc.2 ++ [mkNeg d]
           else acc.2)
        else acc)
      (a, l) defs = (a + slangTotal defs, l ++ slangNegs defs) := by
  induction defs with
  | nil => intro a l; simp [slangTotal, slangNegs]
  | cons d ds ih =>
    intro a l
    simp only [List.foldl_cons, slangTotal, slangNegs]
    by_cases hd : d.hasDef
    · by_cases hc : 1000 < d.votes ∧ themeHit (strLower d.text) = true
      · simp [hd, hc, ih, Nat.add_assoc]
      · simp [hd, hc, ih, Nat.add_assoc]
    · simp [hd, ih]

/-- slangScan in terms of slangTotal and slangNegs. -/
theorem slangScan_eq (defs : List SlangDef) :
    slangScan defs = (slangTotal defs, slangNegs defs) := by
  unfold slangScan
  simpa using slangScan_aux defs 0 []

/-- Field form of the slang step. -/
theorem slangStep_eq (env : Env) (w : String) (r : ValidationResult) :
    slangStep env w r =
      ⟨r.is_valid && !slangFlag env w, r.warnings ++ slangWarns env w, r.suggestions⟩ := by
  unfold slangStep slangWarns slangFlag
  cases h : env.udDefine w with
  | none => simp
  | some defs =>
    cases defs with
    | nil => simp [slangNegs]
    | cons d0 ds0 =>
      simp only [List.isEmpty_cons, if_false, Bool.false_eq_true, slangScan_eq]
      cases hn : slangNegs (d0 :: ds0) with
      | nil =>
        by_cases ht : 3000 < slangTotal (d0 :: ds0) <;> simp [ht, hn]
      | cons n ns =>
        by_cases ht : 3000 < slangTotal (d0 :: ds0) <;> simp [ht, hn]

/-- Field form of the per-unit loop body. -/
theorem checkUnit_eq (env : Env) (w : String) (r : ValidationResult) :
    checkUnit env w r =
      ⟨r.is_valid && !unitFlag env w, r.warnings ++ unitWarns env w, r.suggestions⟩ := by
  unfold checkUnit unitFlag unitWarns
  rw [profStep_eq, slangStep_eq]
  simp [Bool.and_assoc, Bool.not_or]

/-- Field form of the spec-modelled connotation step. -/
theorem connotationStep_eq (env : Env) (w : String) (r : ValidationResult) :
    connotationStep env w r =
      ⟨r.is_valid, r.warnings ++ connWarns env w, r.suggestions⟩ := rfl

/-- Field form of the per-unit loop body of the alternate validator. -/
theorem checkUnitFull_eq (env : Env) (w : String) (r : ValidationResult) :
    checkUnitFull env w r =
      ⟨r.is_valid && !unitFlag env w, r.warnings ++ unitWarnsFull env w, r.suggestions⟩ := by
  unfold checkUnitFull unitWarnsFull
  rw [checkUnit_eq, connotationStep_eq]
  simp

/-- Field form of a sequential run of any per-unit check that only appends
warnings and conjoins a flag into the validity bit. -/
theorem runChecks_eq (f : String → ValidationResult → ValidationResult)
    (flag : String → Bool) (ws : String → List String)
    (hf : ∀ u r, f u r = ⟨r.is_valid && !flag u, r.warnings ++ ws u, r.suggestions⟩) :
    ∀ (l : List String) (r : ValidationResult),
      runChecks f l r =
        ⟨r.is_valid && l.all (fun u => !flag u), r.warnings ++ catMap ws l, r.suggestions⟩ := by
  intro l
  induction l with
  | nil => intro r; simp [runChecks, catMap]
  | cons u us ih =>
    intro r
    simp only [runChecks, catMap]
    rw [hf, ih]
    simp [Bool.and_assoc]

/-- Field form of the phonetic stage. -/
theorem phoneticStage_eq (env : Env) (nl : String) (r : ValidationResult) :
    phoneticStage env nl r =
      ⟨r.is_valid, r.warnings ++ phonWarns env nl, r.suggestions⟩ := by
  unfold phoneticStage phonWarns
  cases h : env.metaphoneEnc nl <;> simp [h]

/-- Field form of the cultural stage. -/
theorem culturalStage_eq (name : String) (r : ValidationResult) :
    culturalStage name r =
      ⟨r.is_valid, r.warnings ++ culturalWarnings name, r.suggestions⟩ := rfl

/-- Closed form of validate_property_name: the per-unit flags decide validity,
the warnings are the concatenation of all stages, and suggestions are
generated exactly when invalid or warned. -/
theorem validate_eq (env : Env) (name : String) :
    validate_property_name env name =
      ⟨allValid env name, allWarns env name,
       if !allValid env name || !(allWarns env name).isEmpty
       then generate_alternative_suggestions env name else []⟩ := by
  unfold validate_property_name allValid allWarns
  rw [runChecks_eq (checkUnit env) (unitFlag env) (unitWarns env) (checkUnit_eq env),
    phoneticStage_eq, culturalStage_eq]
  unfold suggestStage vr0
  by_cases hc :
      (!(vUnits name).all (fun u => !unitFlag env u) ||
        !(catMap (unitWarns env) (vUnits name) ++ phonWarns env (strLower name) ++
            culturalWarnings name).isEmpty) = true
  · simp only [List.nil_append, Bool.true_and, List.append_assoc] at hc ⊢
    rw [if_pos hc, if_pos hc]
  · simp only [List.nil_append, Bool.true_and, List.append_assoc] at hc ⊢
    rw [if_neg hc, if_neg hc]

/-- Closed form of the alternate validator version. -/
theorem validateFull_eq (env : Env) (name : String) :
    validate_property_name_full env name =
      ⟨allValid env name, allWarnsFull env name,
       if !allValid env name || !(allWarnsFull env name).isEmpty
       then generate_alternative_suggestions env name else []⟩ := by
  unfold validate_property_name_full allValid allWarnsFull
  rw [runChecks_eq (checkUnitFull env) (unitFlag env) (unitWarnsFull env) (checkUnitFull_eq env),
    phoneticStage_eq, culturalStage_eq]
  unfold suggestStage vr0
  by_cases hc :
      (!(vUnits name).all (fun u => !unitFlag env u) ||
        !(catMap (unitWarnsFull env) (vUnits name) ++ phonWarns env (strLower name) ++
            culturalWarnings name).isEmpty) = true
  · simp only [List.nil_append, Bool.true_and, List.append_assoc] at hc ⊢
    rw [if_pos hc, if_pos hc]
  · simp only [List.nil_append, Bool.true_and, List.append_assoc] at hc ⊢
    rw [if_neg hc, if_neg hc]

/-- catMap distributes over list append. -/
theorem catMap_append (g : String → List String) (l1 l2 : List String) :
    catMap g (l1 ++ l2) = catMap g l1 ++ catMap g l2 := by
  induction l1 with
  | nil => simp [catMap]
  | cons u us ih => simp [catMap, ih]

/-- A warning contributed by a member unit occurs in the concatenation. -/
theorem mem_catMap (g : String → List String) {u : String} {l : List String}
    {w : String} (hu : u ∈ l) (hw : w ∈ g u) : w ∈ catMap g l := by
  induction l with
  | nil => cases hu
  | cons v vs ih =>
    rcases List.mem_cons.mp hu with h | h
    · subst h; exact List.mem_append_left _ hw
    · exact List.mem_append_right _ (ih h)

/-- A flagged member falsifies the all-clear test. -/
theorem all_not_flag_eq_false {flag : String → Bool} {u : String} {l : List String}
    (hu : u ∈ l) (hf : flag u = true) : l.all (fun x => !flag x) = false := by
  cases hall : l.all (fun x => !flag x) with
  | false => rfl
  | true =>
    have := List.all_eq_true.mp hall u hu
    rw [hf] at this
    cases this

/-- Python max returns an element of the scanned list. -/
theorem pyMaxNeg_mem : ∀ (ds : List NegDef) (best : NegDef),
    pyMaxNeg best ds ∈ best :: ds := by
  intro ds
  induction ds with
  | nil => intro best; simp [pyMaxNeg]
  | cons d ds ih =>
    intro best
    simp only [pyMaxNeg]
    rcases List.mem_cons.mp (ih (if best.upvotes < d.upvotes then d else best)) with h | h
    · by_cases hlt : best.upvotes < d.upvotes
      · rw [if_pos hlt] at h ⊢
        rw [h]
        exact List.mem_cons_of_mem _ (List.mem_cons_self _ _)
      · rw [if_neg hlt] at h ⊢
        rw [h]
        exact List.mem_cons_self _ _
    · exact List.mem_cons_of_mem _ (List.mem_cons_of_mem _ h)

/-- Python max dominates every element of the scanned list. -/
theorem pyMaxNeg_ge : ∀ (ds : List NegDef) (best x : NegDef),
    x ∈ best :: ds → x.upvotes ≤ (pyMaxNeg best ds).upvotes := by
  intro ds
  induction ds with
  | nil =>
    intro best x hx
    rcases List.mem_cons.mp hx with h | h
    · subst h; exact Nat.le_refl _
    · cases h
  | cons d ds ih =>
    intro best x hx
    simp only [pyMaxNeg]
    have hb : best.upvotes ≤ (if best.upvotes < d.upvotes then d else best).upvotes := by
      by_cases hlt : best.upvotes < d.upvotes
      · rw [if_pos hlt]; exact Nat.le_of_lt hlt
      · rw [if_neg hlt]
    have hd : d.upvotes ≤ (if best.upvotes < d.upvotes then d else best).upvotes := by
      by_cases hlt : best.upvotes < d.upvotes
      · rw [if_pos hlt]
      · rw [if_neg hlt]; exact Nat.le_of_not_lt hlt
    have hbestmax := ih (if best.upvotes < d.upvotes then d else best)
      (if best.upvotes < d.upvotes then d else best)
      (List.mem_cons_self _ _)
    rcases List.mem_cons.mp hx with h | h
    · subst h; exact Nat.le_trans hb hbestmax
    · rcases List.mem_cons.mp h with h2 | h2
      · subst h2; exact Nat.le_trans hd hbestmax
      · exact ih _ x (List.mem_cons_of_mem _ h2)

/-- Membership in the negative-definitions list characterized over the raw
definitions. -/
theorem mem_slangNegs {nd : NegDef} : ∀ {defs : List SlangDef},
    nd ∈ slangNegs defs ↔
      ∃ d ∈ defs, d.hasDef = true ∧ 1000 < d.votes ∧ themeHit (strLower d.text) = true ∧
        nd = mkNeg d := by
  intro defs
  induction defs with
  | nil => simp [slangNegs]
  | cons d ds ih =>
    simp only [slangNegs]
    by_cases hd : d.hasDef
    · rw [if_pos hd]
      by_cases hc : 1000 < d.votes ∧ themeHit (strLower d.text) = true
      · rw [if_pos hc]
        simp only [List.mem_append, List.mem_cons, ih]
        constructor
        · rintro ((h | h) | ⟨d2, hd2, h2⟩)
          · exact ⟨d, Or.inl rfl, hd, hc.1, hc.2, h⟩
          · cases h
          · exact ⟨d2, Or.inr hd2, h2⟩
        · rintro ⟨d2, hd2 | hd2, h2⟩
          · subst hd2; exact Or.inl (Or.inl h2.2.2.2)
          · exact Or.inr ⟨d2, hd2, h2⟩
      · rw [if_neg hc]
        simp only [List.nil_append, ih, List.mem_cons]
        constructor
        · rintro ⟨d2, hd2, h2⟩
          exact ⟨d2, Or.inr hd2, h2⟩
        · rintro ⟨d2, hd2 | hd2, h2⟩
          · subst hd2; exact absurd ⟨h2.2.1, h2.2.2.1⟩ hc
          · exact ⟨d2, hd2, h2⟩
    · rw [if_neg hd]
      simp only [List.nil_append, ih, List.mem_cons]
      constructor
      · rintro ⟨d2, hd2, h2⟩
        exact ⟨d2, Or.inr hd2, h2⟩
      · rintro ⟨d2, hd2 | hd2, h2⟩
        · subst hd2; exact absurd h2.1 hd
        · exact ⟨d2, hd2, h2⟩

/-- A unit warning occurs among the final warnings of a validation run. -/
theorem validate_mem_warn {env : Env} {name u w : String}
    (hu : u ∈ vUnits name) (hw : w ∈ unitWarns env u) :
    w ∈ (validate_property_name env name).warnings := by
  rw [validate_eq]
  exact List.mem_append_left _ (List.mem_append_left _ (mem_catMap _ hu hw))

/-- A flagged unit makes the final validity flag false. -/
theorem validate_invalid_of_unit {env : Env} {name u : String}
    (hu : u ∈ vUnits name) (hf : unitFlag env u = true) :
    (validate_property_name env name).is_valid = false := by
  rw [validate_eq]
  exact all_not_flag_eq_false hu hf

/-- C1: for every name containing a profanity-listed or custom-blocklisted
word, either as an exact whitespace-delimited token of the lowercased name or
as a substring of the full lowercased name, validate_property_name returns a
result with is_valid = false whose warnings contain an entry naming that
offending word. -/
theorem C1_blocklisted_word_invalidates (env : Env) (name t : String)
    (hmem : t ∈ env.censorWords ++ customBlocklist)
    (hhit : t ∈ pySplit (strLower name) ∨ t.data <:+: (strLower name).data) :
    (validate_property_name env name).is_valid = false ∧
      ∃ w ∈ (validate_property_name env name).warnings, t.data <:+: w.data := by
  have key : ∃ u ∈ vUnits name, t.data <:+: u.data := by
    rcases hhit with h | h
    · exact ⟨t, List.mem_append_left _ h, listInfixRefl _⟩
    · exact ⟨strLower name, List.mem_append_right _ (List.mem_singleton.mpr rfl), h⟩
  obtain ⟨u, hu, hinf⟩ := key
  have hprof : containsProfanity env u = true := containsProfanity_of_mem hmem hinf
  refine ⟨validate_invalid_of_unit hu (by simp [unitFlag, hprof]), ?_⟩
  refine ⟨profWarn u, validate_mem_warn hu ?_, ?_⟩
  · unfold unitWarns
    rw [if_pos hprof]
    exact List.mem_append_left _ (List.mem_cons_self _ _)
  · unfold profWarn
    exact infix_pad _ _ hinf

/-- Witness for C1 at the concrete name Ghetto Gardens. -/
theorem C1_blocklisted_word_invalidates_witness :
    (validate_property_name env0 "Ghetto Gardens").is_valid = false ∧
      ∃ w ∈ (validate_property_name env0 "Ghetto Gardens").warnings,
        "ghetto".data <:+: w.data :=
  C1_blocklisted_word_invalidates env0 "Ghetto Gardens" "ghetto" (by decide)
    (Or.inl (by decide))

/-- C3: for every name whose validation is invalid, search_property_name
returns the error object with message Invalid property name, embedding the
full validation result, and makes no geocoding or place-search call: the
external-call trace is empty. -/
theorem C3_invalid_name_short_circuit (env : Env) (g : GeoEnv)
    (pname paddr : String) (radius : ℚ)
    (h : (validate_property_name env pname).is_valid = false) :
    search_property_name env g pname paddr radius =
      (SearchOut.err "Invalid property name" (validate_property_name env pname), []) := by
  unfold search_property_name
  simp [h]

/-- Witness for C3 at the invalid concrete name ghetto. -/
theorem C3_invalid_name_short_circuit_witness :
    search_property_name env0 g0 "ghetto" "addr" 5 =
      (SearchOut.err "Invalid property name" (validate_property_name env0 "ghetto"), []) :=
  C3_invalid_name_short_circuit env0 g0 "ghetto" "addr" 5 (by decide)

/-- C9: generate_alternative_suggestions always returns at most 5 entries,
pairwise distinct. -/
theorem C9_suggestions_bounded_distinct (env : Env) (name : String) :
    (generate_alternative_suggestions env name).length ≤ 5 ∧
      (generate_alternative_suggestions env name).Nodup := by
  unfold generate_alternative_suggestions
  constructor
  · exact List.length_take_le _ _
  · exact (List.nodup_dedup _).sublist (List.take_sublist _ _)

/-- C10: a single-word name flagged by the profanity filter receives the
identical warning twice, once for the word and once for the full lowercased
name, since the loop over words + [name_lower] does not deduplicate. -/
theorem C10_single_word_duplicate_warning (env : Env) (name : String)
    (hsplit : pySplit (strLower name) = [strLower name])
    (hprof : containsProfanity env (strLower name) = true) :
    2 ≤ List.count (profWarn (strLower name)) (validate_property_name env name).warnings := by
  have h1 : 1 ≤ List.count (profWarn (strLower name)) (unitWarns env (strLower name)) := by
    unfold unitWarns
    rw [if_pos hprof, List.count_append]
    have hs : List.count (profWarn (strLower name)) [profWarn (strLower name)] = 1 := by simp
    omega
  rw [validate_eq]
  show 2 ≤ List.count _ (allWarns env name)
  unfold allWarns vUnits
  rw [hsplit]
  simp only [catMap_append, catMap, List.append_nil, List.count_append]
  omega

/-- Witness for C10 at the concrete single-word name Ghetto. -/
theorem C10_single_word_duplicate_warning_witness :
    2 ≤ List.count (profWarn (strLower "Ghetto"))
      (validate_property_name env0 "Ghetto").warnings :=
  C10_single_word_duplicate_warning env0 "Ghetto" (by decide) (by decide)

/-- A unit with no slang signal contributes no slang warning and no slang
invalidation flag. -/
theorem slang_silent {env : Env} {u : String}
    (h : ∀ defs, env.udDefine u = some defs →
      slangTotal defs ≤ 3000 ∧ slangNegs defs = []) :
    slangWarns env u = [] ∧ slangFlag env u = false := by
  unfold slangWarns slangFlag
  cases hd : env.udDefine u with
  | none => exact ⟨rfl, rfl⟩
  | some defs =>
    obtain ⟨ht, hn⟩ := h defs hd
    refine ⟨?_, by simp [hn]⟩
    cases defs with
    | nil => simp
    | cons a as => simp [hn, Nat.not_lt.mpr ht]

/-- catMap of an everywhere-empty warning map is empty. -/
theorem catMap_eq_nil {g : String → List String} {l : List String}
    (h : ∀ u ∈ l, g u = []) : catMap g l = [] := by
  induction l with
  | nil => rfl
  | cons u us ih =>
    simp only [catMap, h u (List.mem_cons_self _ _)]
    exact ih fun v hv => h v (List.mem_cons_of_mem _ hv)

/-- C2 counterexample: in the environment envC2 the name Hud matches no
blocklist or profanity term on any of its validation units, gets no slang
lookup result at all, and contains no cultural term, yet
validate_property_name returns a nonempty suggestions list (with is_valid
still true), because the phonetic check warned and the warning triggered
suggestion generation. -/
theorem C2_counterexample :
    containsProfanity envC2 "hud" = false ∧
      envC2.udDefine "hud" = none ∧
      culturalWarnings "Hud" = [] ∧
      vUnits "Hud" = ["hud", "hud"] ∧
      (validate_property_name envC2 "Hud").is_valid = true ∧
      (validate_property_name envC2 "Hud").suggestions = ["Shack"] ∧
      (validate_property_name envC2 "Hud").suggestions ≠ [] := by
  refine ⟨by decide, rfl, by decide, by decide, by decide, by decide, by decide⟩

/-- C2 amended: for every name matching no blocklist or profanity term, no
slang signal (neither a high-popularity negative definition nor a summed
popularity above 3000), no cultural term, and additionally producing no
phonetic-similarity warning, validate_property_name returns is_valid = true
with empty warnings and empty suggestions. -/
theorem C2_clean_name_amended (env : Env) (name : String)
    (hprof : ∀ u ∈ vUnits name, containsProfanity env u = false)
    (hslang : ∀ u ∈ vUnits name, ∀ defs, env.udDefine u = some defs →
      slangTotal defs ≤ 3000 ∧ slangNegs defs = [])
    (hphon : phonWarns env (strLower name) = [])
    (hcult : culturalWarnings name = []) :
    validate_property_name env name = ⟨true, [], []⟩ := by
  rw [validate_eq]
  have hwarns : allWarns env name = [] := by
    unfold allWarns
    rw [hphon, hcult, catMap_eq_nil]
    · simp
    · intro u hu
      unfold unitWarns
      rw [hprof u hu, (slang_silent (hslang u hu)).1]
      simp
  have hvalid : allValid env name = true := by
    unfold allValid
    exact List.all_eq_true.mpr fun u hu => by
      simp [unitFlag, hprof u hu, (slang_silent (hslang u hu)).2]
  rw [hwarns, hvalid]
  simp

/-- Witness for the amended C2 at the clean concrete name Pleasant Valley. -/
theorem C2_clean_name_amended_witness :
    validate_property_name env0 "Pleasant Valley" = ⟨true, [], []⟩ :=
  C2_clean_name_amended env0 "Pleasant Valley" (by decide)
    (fun _ _ _ h => Option.noConfusion h) (by decide) (by decide)

/-- C4 (spec-modelled): in the validator version carrying the connotation
check, the check never changes is_valid or suggestions, and for every word of
the name, every lexical-semantics definition text containing one of
offensive, derogatory, inappropriate or slur appears among the final
warnings. -/
theorem C4_connotation_warns_only :
    (∀ (env : Env) (w : String) (r : ValidationResult),
      (connotationStep env w r).is_valid = r.is_valid ∧
      (connotationStep env w r).suggestions = r.suggestions) ∧
    (∀ (env : Env) (name w t : String),
      w ∈ pySplit (strLower name) → t ∈ env.wnDefs w → connotationHit t = true →
      t ∈ (validate_property_name_full env name).warnings) := by
  constructor
  · intro env w r
    rw [connotationStep_eq]
    exact ⟨rfl, rfl⟩
  · intro env name w t hw ht hhit
    rw [validateFull_eq]
    show t ∈ allWarnsFull env name
    unfold allWarnsFull
    refine List.mem_append_left _ (List.mem_append_left _
      (mem_catMap _ (List.mem_append_left _ hw) ?_))
    unfold unitWarnsFull connWarns
    exact List.mem_append_right _ (List.mem_filter.mpr ⟨ht, hhit⟩)

/-- Witness for C4 at the concrete name Grand Plaza. -/
theorem C4_connotation_warns_only_witness :
    (connotationStep envC4 "grand" vr0).is_valid = vr0.is_valid ∧
      "an offensive term" ∈ (validate_property_name_full envC4 "Grand Plaza").warnings :=
  ⟨(C4_connotation_warns_only.1 envC4 "grand" vr0).1,
   C4_connotation_warns_only.2 envC4 "Grand Plaza" "grand" "an offensive term"
     (by decide) (by decide) (by decide)⟩

/-- C6: the phonetic and the cultural check never change is_valid or
suggestions and only append warnings, and a name none of whose units is
flagged by the profanity or slang check keeps is_valid = true even when
phonetic or cultural warnings fired. -/
theorem C6_phonetic_cultural_warn_only :
    (∀ (env : Env) (nl : String) (r : ValidationResult),
      (phoneticStage env nl r).is_valid = r.is_valid ∧
      (phoneticStage env nl r).suggestions = r.suggestions ∧
      ∃ t, (phoneticStage env nl r).warnings = r.warnings ++ t) ∧
    (∀ (name : String) (r : ValidationResult),
      (culturalStage name r).is_valid = r.is_valid ∧
      (culturalStage name r).suggestions = r.suggestions ∧
      ∃ t, (culturalStage name r).warnings = r.warnings ++ t) ∧
    (∀ (env : Env) (name : String),
      (∀ u ∈ vUnits name, unitFlag env u = false) →
      (validate_property_name env name).is_valid = true) := by
  refine ⟨?_, ?_, ?_⟩
  · intro env nl r
    rw [phoneticStage_eq]
    exact ⟨rfl, rfl, phonWarns env nl, rfl⟩
  · intro name r
    rw [culturalStage_eq]
    exact ⟨rfl, rfl, culturalWarnings name, rfl⟩
  · intro env name h
    rw [validate_eq]
    show allValid env name = true
    exact List.all_eq_true.mpr fun u hu => by simp [h u hu]

/-- Witness for C6: a phonetic-only hit (envC2, Hud) and a cultural-only hit
(Colonial Heights) both keep is_valid = true, and the two stages preserve the
validity bit on a concrete state. -/
theorem C6_phonetic_cultural_warn_only_witness :
    (phoneticStage envC2 "hud" vr0).is_valid = vr0.is_valid ∧
      (culturalStage "Colonial Heights" vr0).is_valid = vr0.is_valid ∧
      (validate_property_name envC2 "Hud").is_valid = true ∧
      (validate_property_name env0 "Colonial Heights").is_valid = true :=
  ⟨(C6_phonetic_cultural_warn_only.1 envC2 "hud" vr0).1,
   (C6_phonetic_cultural_warn_only.2.1 "Colonial Heights" vr0).1,
   C6_phonetic_cultural_warn_only.2.2 envC2 "Hud" (by decide),
   C6_phonetic_cultural_warn_only.2.2 env0 "Colonial Heights" (by decide)⟩

/-- C7: validation always runs to completion: the per-word loop handles
exactly N+1 units for an N-word name, the warnings of every loop prefix are
preserved as a prefix of the final warnings, validity never returns to true
once some loop prefix made it false, and the phonetic and cultural warnings
always reach the final result. -/
theorem C7_all_stages_run (env : Env) (name : String) :
    (vUnits name).length = (pySplit (strLower name)).length + 1 ∧
    (∀ k, ∃ t, (validate_property_name env name).warnings =
      (runChecks (checkUnit env) ((vUnits name).take k) vr0).warnings ++ t) ∧
    (∀ k, (runChecks (checkUnit env) ((vUnits name).take k) vr0).is_valid = false →
      (validate_property_name env name).is_valid = false) ∧
    (∀ w ∈ phonWarns env (strLower name), w ∈ (validate_property_name env name).warnings) ∧
    (∀ w ∈ culturalWarnings name, w ∈ (validate_property_name env name).warnings) := by
  refine ⟨by simp [vUnits], ?_, ?_, ?_, ?_⟩
  · intro k
    rw [validate_eq,
      runChecks_eq (checkUnit env) (unitFlag env) (unitWarns env) (checkUnit_eq env)]
    show ∃ t, allWarns env name = _ ++ t
    refine ⟨catMap (unitWarns env) ((vUnits name).drop k) ++
      phonWarns env (strLower name) ++ culturalWarnings name, ?_⟩
    unfold allWarns
    conv_lhs => rw [← List.take_append_drop k (vUnits name)]
    rw [catMap_append]
    simp [vr0, List.append_assoc]
  · intro k h
    rw [runChecks_eq (checkUnit env) (unitFlag env) (unitWarns env) (checkUnit_eq env)] at h
    simp only [vr0, Bool.true_and] at h
    rw [validate_eq]
    show allValid env name = false
    cases hall : allValid env name with
    | false => rfl
    | true =>
      exfalso
      unfold allValid at hall
      have : ((vUnits name).take k).all (fun u => !unitFlag env u) = true :=
        List.all_eq_true.mpr fun u hu =>
          List.all_eq_true.mp hall u ((List.take_sublist _ _).mem hu)
      rw [h] at this
      cases this
  · intro w hw
    rw [validate_eq]
    show w ∈ allWarns env name
    exact List.mem_append_left _ (List.mem_append_right _ hw)
  · intro w hw
    rw [validate_eq]
    show w ∈ allWarns env name
    exact List.mem_append_right _ hw

/-- Witness for C7 at concrete names: a one-word name has 2 units, a flagged
prefix forces final invalidity, the prefix-preservation instance at k = 1,
and the cultural warning of Colonial Heights reaches the final warnings. -/
theorem C7_all_stages_run_witness :
    (vUnits "ghetto").length = (pySplit (strLower "ghetto")).length + 1 ∧
      (∃ t, (validate_property_name env0 "ghetto").warnings =
        (runChecks (checkUnit env0) ((vUnits "ghetto").take 1) vr0).warnings ++ t) ∧
      (validate_property_name env0 "ghetto").is_valid = false ∧
      culturalWarn "colonial" "Historical connection to colonialism" ∈
        (validate_property_name env0 "Colonial Heights").warnings :=
  ⟨(C7_all_stages_run env0 "ghetto").1,
   (C7_all_stages_run env0 "ghetto").2.1 1,
   (C7_all_stages_run env0 "ghetto").2.2.1 1 (by decide),
   (C7_all_stages_run env0 "Colonial Heights").2.2.2.2 _ (by decide)⟩

/-- C5: for a word of the name with slang lookup results: a definition with
more than 1000 votes and a negative theme forces is_valid = false and a
warning carrying the first-100-character excerpt of the highest-popularity
such definition; a summed popularity above 3000 yields the
significant-slang-usage warning, and that branch never changes is_valid. -/
theorem C5_slang_check (env : Env) (name word : String) (defs : List SlangDef)
    (hword : word ∈ pySplit (strLower name))
    (hdefs : env.udDefine word = some defs) :
    ((∃ d ∈ defs, d.hasDef = true ∧ 1000 < d.votes ∧ themeHit (strLower d.text) = true) →
      (validate_property_name env name).is_valid = false ∧
      ∃ dm ∈ defs, dm.hasDef = true ∧ 1000 < dm.votes ∧ themeHit (strLower dm.text) = true ∧
        (∀ d2 ∈ defs, d2.hasDef = true → 1000 < d2.votes →
          themeHit (strLower d2.text) = true → d2.votes ≤ dm.votes) ∧
        negWarn word (strTake 100 (strLower dm.text)) ∈
          (validate_property_name env name).warnings) ∧
    (3000 < slangTotal defs →
      sigWarn word (slangTotal defs) ∈ (validate_property_name env name).warnings) ∧
    (slangNegs defs = [] →
      ∀ r : ValidationResult, (slangStep env word r).is_valid = r.is_valid) := by
  have hu : word ∈ vUnits name := List.mem_append_left _ hword
  refine ⟨?_, ?_, ?_⟩
  · rintro ⟨d, hd, hhas, hv, hth⟩
    have hmemneg : mkNeg d ∈ slangNegs defs :=
      mem_slangNegs.mpr ⟨d, hd, hhas, hv, hth, rfl⟩
    obtain ⟨n, ns, hneg⟩ : ∃ n ns, slangNegs defs = n :: ns := by
      cases hne : slangNegs defs with
      | nil => rw [hne] at hmemneg; cases hmemneg
      | cons n ns => exact ⟨n, ns, rfl⟩
    have hflag : slangFlag env word = true := by
      unfold slangFlag
      rw [hdefs]
      simp [hneg]
    refine ⟨validate_invalid_of_unit hu (by simp [unitFlag, hflag]), ?_⟩
    have hndmem : pyMaxNeg n ns ∈ slangNegs defs := by
      rw [hneg]; exact pyMaxNeg_mem ns n
    obtain ⟨dm, hdm, hdmhas, hdmv, hdmth, hdmeq⟩ := mem_slangNegs.mp hndmem
    refine ⟨dm, hdm, hdmhas, hdmv, hdmth, ?_, ?_⟩
    · intro d2 h2 h2has h2v h2th
      have h2mem : mkNeg d2 ∈ slangNegs defs :=
        mem_slangNegs.mpr ⟨d2, h2, h2has, h2v, h2th, rfl⟩
      rw [hneg] at h2mem
      have hle := pyMaxNeg_ge ns n (mkNeg d2) h2mem
      rw [hdmeq] at hle
      simpa [mkNeg] using hle
    · have hwmem : negWarn word (pyMaxNeg n ns).text ∈ slangWarns env word := by
        unfold slangWarns
        rw [hdefs]
        cases defs with
        | nil => exact List.noConfusion hneg
        | cons a as =>
          simp only [List.isEmpty_cons, Bool.false_eq_true, if_false, hneg]
          exact List.mem_append_right _ (List.mem_cons_self _ _)
      rw [hdmeq] at hwmem
      have hwu : negWarn word (mkNeg dm).text ∈ unitWarns env word := by
        unfold unitWarns
        exact List.mem_append_right _ hwmem
      exact validate_mem_warn hu hwu
  · intro ht
    have hmem : sigWarn word (slangTotal defs) ∈ slangWarns env word := by
      unfold slangWarns
      rw [hdefs]
      cases defs with
      | nil => simp [slangTotal] at ht
      | cons a as =>
        simp only [List.isEmpty_cons, Bool.false_eq_true, if_false]
        rw [if_pos ht]
        exact List.mem_append_left _ (List.mem_cons_self _ _)
    have hwu : sigWarn word (slangTotal defs) ∈ unitWarns env word := by
      unfold unitWarns
      exact List.mem_append_right _ hmem
    exact validate_mem_warn hu hwu
  · intro hn r
    rw [slangStep_eq]
    show (r.is_valid && !(slangFlag env word)) = r.is_valid
    have hf : slangFlag env word = false := by
      unfold slangFlag
      rw [hdefs]
      simp [hn]
    rw [hf]
    simp

/-- Witness for C5 in the environment envS at the name The Domain. -/
theorem C5_slang_check_witness :
    (validate_property_name envS "The Domain").is_valid = false ∧
      sigWarn "domain" 3500 ∈ (validate_property_name envS "The Domain").warnings ∧
      (slangStep envS "the" vr0).is_valid = vr0.is_valid :=
  ⟨((C5_slang_check envS "The Domain" "domain" [slangD0, slangD1] (by decide)
      (by decide)).1 ⟨slangD0, by decide, rfl, by decide, by decide⟩).1,
   (C5_slang_check envS "The Domain" "domain" [slangD0, slangD1] (by decide)
      (by decide)).2.1 (by decide),
   (C5_slang_check envS "The Domain" "the" [slangD1] (by decide) (by decide)).2.2
      (by decide) vr0⟩

/-- Inversion of a successful search: the coordinates were found, the place
query succeeded, and the conflicts are the sorted collected entries. -/
theorem search_ok_inv (env : Env) (g : GeoEnv) (pname paddr : String) (radius : ℚ)
    (ts : String) (n : Nat) (cf : List ConflictEntry) (vr : ValidationResult)
    (calls : List ExtCall)
    (h : search_property_name env g pname paddr radius = (SearchOut.ok ts n cf vr, calls)) :
    ∃ coords, (get_property_coordinates g paddr).1 = some coords ∧
      ∃ places, g.placesNearby coords (radius * (1609.34 : ℚ)) pname = Except.ok places ∧
        cf = sortConflicts (collectPlaces g pname coords radius places).1 := by
  unfold search_property_name at h
  by_cases hv : (validate_property_name env pname).is_valid = false
  · rw [if_pos hv] at h
    have h' : SearchOut.err "Invalid property name" (validate_property_name env pname) =
        SearchOut.ok ts n cf vr := congrArg Prod.fst h
    exact SearchOut.noConfusion h'
  · rw [if_neg hv] at h
    rcases hg : get_property_coordinates g paddr with ⟨copt, calls2⟩
    rw [hg] at h
    cases copt with
    | none =>
      have h' : SearchOut.err "Could not get coordinates for provided address"
          (validate_property_name env pname) = SearchOut.ok ts n cf vr :=
        congrArg Prod.fst h
      exact SearchOut.noConfusion h'
    | some coords =>
      have h2 : (match g.placesNearby coords (radius * (1609.34 : ℚ)) pname with
          | Except.error e =>
            (SearchOut.err ("Error searching for properties: " ++ e)
              (validate_property_name env pname),
             calls2 ++ [ExtCall.placesNearby])
          | Except.ok places =>
            (SearchOut.ok g.now (collectPlaces g pname coords radius places).1.length
               (sortConflicts (collectPlaces g pname coords radius places).1)
               (validate_property_name env pname),
             calls2 ++ [ExtCall.placesNearby] ++ (collectPlaces g pname coords radius places).2))
          = (SearchOut.ok ts n cf vr, calls) := h
      cases hp : g.placesNearby coords (radius * (1609.34 : ℚ)) pname with
      | error e =>
        rw [hp] at h2
        have h' : SearchOut.err ("Error searching for properties: " ++ e)
            (validate_property_name env pname) = SearchOut.ok ts n cf vr :=
          congrArg Prod.fst h2
        exact SearchOut.noConfusion h'
      | ok places =>
        rw [hp] at h2
        have h' : SearchOut.ok g.now (collectPlaces g pname coords radius places).1.length
            (sortConflicts (collectPlaces g pname coords radius places).1)
            (validate_property_name env pname) = SearchOut.ok ts n cf vr :=
          congrArg Prod.fst h2
        injection h' with e1 e2 e3 e4
        exact ⟨coords, rfl, places, hp, e3.symm⟩

/-- C8: the distance filter of the candidate loop is boundary inclusive, a
candidate farther than the radius contributes no entry, the returned
potential_conflicts list is sorted ascending by its distance field, and in a
successful search it is a permutation of the collected entries. -/
theorem C8_distance_filter_sorted :
    (∀ (g : GeoEnv) (pname : String) (coords : PlaceLoc) (radius : ℚ) (place : Place),
      radius < g.geodesicMiles coords place.loc →
      (processPlace g pname coords radius place).1 = []) ∧
    (∀ (g : GeoEnv) (pname : String) (coords : PlaceLoc) (radius : ℚ) (place : Place),
      substrB (strLower pname) (strLower place.name) = true →
      g.geodesicMiles coords place.loc = radius →
      (processPlace g pname coords radius place).1.length = 1) ∧
    (∀ (env : Env) (g : GeoEnv) (pname paddr : String) (radius : ℚ),
      List.Sorted (fun a b : ConflictEntry => a.distance ≤ b.distance)
        ((search_property_name env g pname paddr radius).1).conflicts) ∧
    (∀ (env : Env) (g : GeoEnv) (pname paddr : String) (radius : ℚ)
        (ts : String) (n : Nat) (cf : List ConflictEntry) (vr : ValidationResult)
        (calls : List ExtCall),
      search_property_name env g pname paddr radius = (SearchOut.ok ts n cf vr, calls) →
      ∃ coords, (get_property_coordinates g paddr).1 = some coords ∧
        ∃ places, g.placesNearby coords (radius * (1609.34 : ℚ)) pname = Except.ok places ∧
          cf.Perm (collectPlaces g pname coords radius places).1) := by
  refine ⟨?_, ?_, ?_, ?_⟩
  · intro g pname coords radius place h
    have hle : ¬(g.geodesicMiles coords place.loc ≤ radius) := not_le.mpr h
    unfold processPlace
    by_cases hn : substrB (strLower pname) (strLower place.name) = true <;>
      cases hd : g.placeDetails place.place_id <;> simp [hn, hd, hle]
  · intro g pname coords radius place hn hd
    unfold processPlace
    cases hdet : g.placeDetails place.place_id <;> simp [hn, hdet, hd]
  · intro env g pname paddr radius
    rcases hE : search_property_name env g pname paddr radius with ⟨out, calls⟩
    cases out with
    | err m vr => exact List.sorted_nil
    | ok ts n cf vr =>
      obtain ⟨coords, hc, places, hp, hcf⟩ :=
        search_ok_inv env g pname paddr radius ts n cf vr calls hE
      show List.Sorted (fun a b : ConflictEntry => a.distance ≤ b.distance) cf
      rw [hcf]
      exact List.sorted_insertionSort _ _
  · intro env g pname paddr radius ts n cf vr calls h
    obtain ⟨coords, hc, places, hp, hcf⟩ :=
      search_ok_inv env g pname paddr radius ts n cf vr calls h
    refine ⟨coords, hc, places, hp, ?_⟩
    rw [hcf]
    exact List.perm_insertionSort _ _

/-- Witness for C8: a 5-mile candidate is excluded at radius 3 and included
at radius 5, and a successful concrete search returns a permutation of the
collected entries. -/
theorem C8_distance_filter_sorted_witness :
    (processPlace g1 "The Domain" loc0 3 place0).1 = [] ∧
      (processPlace g1 "The Domain" loc0 5 place0).1.length = 1 ∧
      (∃ coords, (get_property_coordinates g2 "addr").1 = some coords ∧
        ∃ places,
          g2.placesNearby coords ((3 : ℚ) * (1609.34 : ℚ)) "The Domain" = Except.ok places ∧
          List.Perm [e0] (collectPlaces g2 "The Domain" coords 3 places).1) :=
  ⟨C8_distance_filter_sorted.1 g1 "The Domain" loc0 3 place0 (by decide),
   C8_distance_filter_sorted.2.1 g1 "The Domain" loc0 5 place0 (by decide) (by decide),
   C8_distance_filter_sorted.2.2.2 env0 g2 "The Domain" "addr" 3 "ts" 1 [e0]
     (validate_property_name env0 "The Domain")
     [ExtCall.googleGeocode "addr", ExtCall.placesNearby, ExtCall.placeDetails "p0"]
     (by decide)⟩

end PropertyNames
